import Mathlib

/-!
Verification of the crypto HFT tool core against its specification.

Shallow embedding of the Python modules under src/crypto_hft_tool:
fee_manager.py, orderbook_manager.py, risk_manager.py, signals.py,
enhanced_risk_manager.py, execution_manager.py and the admission logic of
main.py (trading_loop).  Python floats are modelled as rationals, except
where the source takes square roots, where reals are used.  Timestamps are
modelled as rationals (days for the fee ledger, seconds for book staleness),
dates as integers.  Exceptions are modelled as Option results, and calls to
the exchange client are modelled by a log of actions together with a list of
client responses consumed in order.
-/

namespace CryptoHft

/-- Association-list lookup used to model Python dict lookups. -/
def alookup {α β : Type} [DecidableEq α] (k : α) : List (α × β) → Option β
  | [] => none
  | (a, b) :: rest => if k = a then some b else alookup k rest

/-- Association-list insert-or-replace used to model Python dict assignment. -/
def aset {α β : Type} [DecidableEq α] (k : α) (v : β) : List (α × β) → List (α × β)
  | [] => [(k, v)]
  | (a, b) :: rest => if k = a then (k, v) :: rest else (a, b) :: aset k v rest

/-! ## FeeManager (fee_manager.py) -/

/-- One volume tier of the fee schedule (fee_manager.py, class VolumeTier). -/
structure VolumeTier where
  maker_fee : ℚ
  taker_fee : ℚ
  min_volume : ℚ
  currency : String
  deriving Repr, DecidableEq

/-- The maker or taker rate of a tier, as selected in FeeManager.get_fees. -/
def tierRate (t : VolumeTier) (is_maker : Bool) : ℚ :=
  if is_maker then t.maker_fee else t.taker_fee

/-- The tier scan of FeeManager.get_fees: starting from the current rate,
take each tier whose min_volume is reached and stop at the first tier that
is not reached. -/
def scanTiers (volume : ℚ) (is_maker : Bool) : List VolumeTier → ℚ → ℚ
  | [], current => current
  | t :: rest, current =>
      if volume ≥ t.min_volume then scanTiers volume is_maker rest (tierRate t is_maker)
      else current

/-- FeeManager.get_fees, parameterised by the venue default rate, the venue
tier list and the already computed 30-day volume. -/
def get_fees (default_rate : ℚ) (tiers : List VolumeTier) (volume : ℚ)
    (is_maker : Bool) : ℚ :=
  scanTiers volume is_maker tiers default_rate

/-- FeeManager.add_volume: append (timestamp, amount * price) to the ledger,
then keep only entries strictly newer than timestamp minus 30 days.
Timestamps are in days. -/
def add_volume (hist : List (ℚ × ℚ)) (amount price timestamp : ℚ) : List (ℚ × ℚ) :=
  (hist ++ [(timestamp, amount * price)]).filter (fun e => timestamp - 30 < e.1)

/-- FeeManager.get_30d_volume: total ledger volume, converted to BTC at the
hard-coded approximate price 30000 when in_btc is requested for binance. -/
def get_30d_volume (hist : List (ℚ × ℚ)) (in_btc : Bool) (is_binance : Bool) : ℚ :=
  let total := (hist.map (·.2)).sum
  if in_btc && is_binance then total / 30000 else total

/-- Effective price after fees at a given fee rate (the arithmetic of
FeeManager.calculate_effective_price). -/
def effective_price (price fee_rate : ℚ) (is_buy : Bool) : ℚ :=
  if is_buy then price * (1 + fee_rate) else price * (1 - fee_rate)

/-- FeeManager.calculate_effective_price, with the rate obtained from
get_fees on the venue schedule. -/
def calculate_effective_price (default_rate : ℚ) (tiers : List VolumeTier)
    (volume : ℚ) (is_maker : Bool) (price : ℚ) (is_buy : Bool) : ℚ :=
  effective_price price (get_fees default_rate tiers volume is_maker) is_buy

/-- The binance volume tiers of FeeManager.__init__. -/
def binanceTiers : List VolumeTier :=
  [⟨9/10000, 9/10000, 50, "BTC"⟩, ⟨8/10000, 8/10000, 100, "BTC"⟩,
   ⟨7/10000, 7/10000, 500, "BTC"⟩]

/-- The kraken volume tiers of FeeManager.__init__. -/
def krakenTiers : List VolumeTier :=
  [⟨14/10000, 24/10000, 50000, "USD"⟩, ⟨12/10000, 22/10000, 100000, "USD"⟩,
   ⟨10/10000, 20/10000, 250000, "USD"⟩]

/-- Binance default taker rate from FeeManager.__init__ (0.10 percent). -/
def binanceDefaultTaker : ℚ := 10/10000

/-- Kraken default taker rate from FeeManager.__init__ (0.26 percent). -/
def krakenDefaultTaker : ℚ := 26/10000

/-! ## OrderBook and OrderbookManager (orderbook_manager.py) -/

/-- Insert or replace a price level in a price-sorted association list,
modelling assignment into a SortedDict keyed by price. -/
def setLevel : List (ℚ × ℚ) → ℚ → ℚ → List (ℚ × ℚ)
  | [], p, a => [(p, a)]
  | (q, b) :: rest, p, a =>
      if p < q then (p, a) :: (q, b) :: rest
      else if p = q then (p, a) :: rest
      else (q, b) :: setLevel rest p a

/-- Remove a price level, modelling SortedDict.pop(price, None): removing an
absent level is a no-op. -/
def removeLevel : List (ℚ × ℚ) → ℚ → List (ℚ × ℚ)
  | [], _ => []
  | (q, b) :: rest, p => if q = p then removeLevel rest p else (q, b) :: removeLevel rest p

/-- The level mutation of OrderBook.update: quantity 0 removes the level,
any other quantity sets it. -/
def updateLevels (levels : List (ℚ × ℚ)) (price amount : ℚ) : List (ℚ × ℚ) :=
  if amount = 0 then removeLevel levels price else setLevel levels price amount

/-- One side-keyed order book as in orderbook_manager.OrderBook: price-sorted
bid and ask levels plus an optional last-update timestamp (seconds). -/
structure OrderBook where
  bids : List (ℚ × ℚ)
  asks : List (ℚ × ℚ)
  last_update : Option ℚ
  deriving Repr, DecidableEq

/-- OrderBook.update: any side string other than the bids side selects the
asks side, as in the source conditional; the update also stamps
last_update with the current time. -/
def OrderBook.update (b : OrderBook) (side : String) (price amount now : ℚ) :
    OrderBook :=
  if side = "bids" then
    { b with bids := updateLevels b.bids price amount, last_update := some now }
  else
    { b with asks := updateLevels b.asks price amount, last_update := some now }

/-- Top-of-book snapshot; the ask uses WithTop to model Decimal infinity for
an empty ask side. -/
structure TopOfBook where
  bid : ℚ
  ask : WithTop ℚ
  deriving Repr, DecidableEq

/-- OrderBook.get_top: highest bid price (0 when there are no bids) and
lowest ask price (infinity when there are no asks). -/
def OrderBook.get_top (b : OrderBook) : TopOfBook :=
  { bid := match b.bids.getLast? with
      | some e => e.1
      | none => 0,
    ask := match b.asks.head? with
      | some e => (e.1 : WithTop ℚ)
      | none => ⊤ }

/-- OrderbookManager.get_orderbook: None when the book is absent, None when
the last update is older than 5 seconds, and otherwise the top of book; a
book that was created but never updated has no last_update and is served. -/
def get_orderbook (books : List ((String × String) × OrderBook))
    (exchange symbol : String) (now : ℚ) : Option TopOfBook :=
  match alookup (exchange, symbol) books with
  | none => none
  | some b =>
      match b.last_update with
      | some t => if now - t > 5 then none else some b.get_top
      | none => some b.get_top

/-! ## RiskManager (risk_manager.py) -/

/-- The mutable state of risk_manager.RiskManager.  Positions are modelled
by their size and average price; entry_spreads keeps the spread values of
the entry dictionary in insertion order; last_reset is a date ordinal. -/
structure RiskState where
  max_position_size : ℚ
  max_daily_loss : ℚ
  stop_loss_percentage : ℚ
  daily_pnl : ℚ
  daily_loss_limit_reached : Bool
  entry_spreads : List ℚ
  positions : List (String × ℚ × ℚ)
  last_reset : ℤ
  deriving Repr, DecidableEq

/-- The position size read in can_trade:
current_positions.get(symbol, dict()).get(size, 0.0). -/
def posSize (positions : List (String × ℚ × ℚ)) (symbol : String) : ℚ :=
  match alookup symbol positions with
  | some p => p.1
  | none => 0

/-- RiskManager._check_daily_reset: on a strictly later date, clear the
daily PnL and the loss-limit flag. -/
def check_daily_reset (s : RiskState) (today : ℤ) : RiskState :=
  if s.last_reset < today then
    { s with daily_pnl := 0, daily_loss_limit_reached := false, last_reset := today }
  else s

/-- RiskManager.can_trade: blocked while the daily loss limit flag is set
(checked first, before any reset can run), then the per-symbol position cap;
only a passing call reaches the daily reset. -/
def can_trade (s : RiskState) (symbol : String) (amount : ℚ) (today : ℤ) :
    Bool × RiskState :=
  if s.daily_loss_limit_reached then (false, s)
  else if |posSize s.positions symbol + amount| > s.max_position_size then (false, s)
  else (true, check_daily_reset s today)

/-- RiskManager.register_trade: accumulate PnL, latch the loss-limit flag
when daily PnL falls to or below the negated max daily loss, and record the
entry spread when one is given.  The amount and direction arguments are
unused by the source body. -/
def register_trade (s : RiskState) (_amount pnl : ℚ) (entry_spread : Option ℚ)
    (_direction : ℤ) : RiskState :=
  let p := s.daily_pnl + pnl
  { s with
    daily_pnl := p,
    daily_loss_limit_reached := s.daily_loss_limit_reached || decide (p ≤ -s.max_daily_loss),
    entry_spreads :=
      match entry_spread with
      | some e => s.entry_spreads ++ [e]
      | none => s.entry_spreads }

/-- RiskManager.check_stop_loss: with no explicit entry spread the most
recent recorded one is used (none recorded means no trigger); for a nonzero
entry spread the trigger condition is a relative change strictly above
stop_loss_percentage, with no directionality. -/
def check_stop_loss (s : RiskState) (current_spread : ℚ) (entry_spread : Option ℚ) :
    Bool :=
  let e? := match entry_spread with
    | some e => some e
    | none => s.entry_spreads.getLast?
  match e? with
  | none => false
  | some e =>
      if e ≠ 0 then decide (|current_spread - e| / |e| > s.stop_loss_percentage)
      else false

/-- RiskManager.reset_entry_state: clear all recorded entry spreads. -/
def reset_entry_state (s : RiskState) : RiskState :=
  { s with entry_spreads := [] }

/-- RiskManager.update_position: net effect of the source update on the
stored size and average price. -/
def update_position (s : RiskState) (symbol : String) (amount price : ℚ) :
    RiskState :=
  let old := match alookup symbol s.positions with
    | some p => p
    | none => (0, 0)
  let old_size := old.1
  let old_avg := old.2
  let new_size := old_size + amount
  let new_avg :=
    if (old_size ≥ 0 ∧ amount > 0) ∨ (old_size ≤ 0 ∧ amount < 0) then
      if new_size ≠ 0 then (old_size * old_avg + amount * price) / new_size
      else old_avg
    else old_avg
  { s with positions := aset symbol (new_size, new_avg) s.positions }

/-- The RiskManager construction defaults (risk_manager.RiskManager.__init__)
at a given stop-loss percentage. -/
def mkRisk (stop_loss_percentage : ℚ) : RiskState :=
  { max_position_size := 1/10, max_daily_loss := 1/100,
    stop_loss_percentage := stop_loss_percentage,
    daily_pnl := 0, daily_loss_limit_reached := false,
    entry_spreads := [], positions := [], last_reset := 0 }

/-- A call against a RiskManager: an admission call or a state-mutating
trade call; the external reset _check_daily_reset is deliberately absent. -/
inductive RMOp where
  | canTrade (symbol : String) (amount : ℚ) (today : ℤ)
  | registerTrade (amount pnl : ℚ) (entry : Option ℚ) (direction : ℤ)
  | updatePosition (symbol : String) (amount price : ℚ)
  | checkStopLoss (current : ℚ) (entry : Option ℚ)
  | resetEntryState
  deriving Repr, DecidableEq

/-- Run a sequence of RiskManager calls, collecting the boolean results of
the admission calls. -/
def runOps : RiskState → List RMOp → List Bool × RiskState
  | s, [] => ([], s)
  | s, op :: rest =>
      match op with
      | .canTrade sym amt d =>
          let r := can_trade s sym amt d
          let rec' := runOps r.2 rest
          (r.1 :: rec'.1, rec'.2)
      | .registerTrade a p e dir => runOps (register_trade s a p e dir) rest
      | .updatePosition sym a pr => runOps (update_position s sym a pr) rest
      | .checkStopLoss _ _ => runOps s rest
      | .resetEntryState => runOps (reset_entry_state s) rest

/-! ## Trading loop admission (main.py, trading_loop) -/

/-- The per-symbol minimum-profit lookup of the trading loop:
TRADE_SETTINGS thresholds with the default fallback. -/
def minProfitLookup (m : List (String × ℚ)) (dflt : ℚ) (symbol : String) : ℚ :=
  (alookup symbol m).getD dflt

/-- The min_profit_after_fees table of config.py. -/
def minProfitAfterFees : List (String × ℚ) :=
  [("BTC/USDT", 1/200000), ("ETH/USDT", 1/100000)]

/-- The default min_profit_after_fees floor of config.py. -/
def minProfitDefault : ℚ := 1/200000

/-- The binance taker fee of config.py FEES. -/
def feeBinanceTaker : ℚ := 1/100000

/-- The kraken taker fee of config.py FEES. -/
def feeKrakenTaker : ℚ := 1/100000

/-- The profit quantity of trading_loop: for a positive z-score the primary
bid minus the secondary ask, otherwise the secondary bid minus the primary
ask.  Raw venue prices, no fee adjustment. -/
def tradingLoopProfit (zpos : Bool) (bidP askP bidS askS : ℚ) : ℚ :=
  if zpos then bidP - askS else bidS - askP

/-- The profitability admission of trading_loop: a simulated trade is
emitted exactly when the raw profit reaches the per-symbol floor. -/
def tradingLoopEmits (zpos : Bool) (bidP askP bidS askS minProfit : ℚ) : Bool :=
  decide (tradingLoopProfit zpos bidP askP bidS askS ≥ minProfit)

/-- TradeSimulator.simulate_arbitrage_trade net PnL: revenue minus cost
minus both legs' fees. -/
def simulate_arbitrage_pnl (amount buy_price sell_price buy_fee_rate sell_fee_rate : ℚ) : ℚ :=
  amount * sell_price - amount * buy_price -
    (amount * buy_price * buy_fee_rate + amount * sell_price * sell_fee_rate)

/-! ## RollingZScore (signals.py) -/

/-- Arithmetic mean, as numpy mean over the buffered values. -/
noncomputable def listMean (xs : List ℝ) : ℝ := xs.sum / xs.length

/-- Sample standard deviation with ddof equal to 1, exactly as the
np.std call of RollingZScore.update. -/
noncomputable def sampleStd (xs : List ℝ) : ℝ :=
  Real.sqrt (((xs.map fun x => (x - listMean xs) ^ 2).sum) / ((xs.length : ℝ) - 1))

/-- Population standard deviation (ddof 0).  Modelled from the spec: this is
the statistic the specification and tests/test_signals.py prescribe for the
rolling z-score; the shipped update method uses sampleStd instead. -/
noncomputable def popStd (xs : List ℝ) : ℝ :=
  Real.sqrt (((xs.map fun x => (x - listMean xs) ^ 2).sum) / (xs.length : ℝ))

/-- The deque with maxlen: keep the most recent n entries. -/
def takeLast {α : Type} (n : ℕ) (l : List α) : List α := l.drop (l.length - n)

/-- One step of RollingZScore.update for a single window: append the value
to the bounded buffer, and with at least two points return
(value - mean) / std with the sample standard deviation, zero when the
standard deviation is not positive; fewer than two points give zero. -/
noncomputable def zscoreUpdate (window : ℕ) (buf : List ℝ) (value : ℝ) :
    List ℝ × ℝ :=
  let buf2 := takeLast window (buf ++ [value])
  (buf2,
    if 2 ≤ buf2.length then
      if 0 < sampleStd buf2 then (value - listMean buf2) / sampleStd buf2 else 0
    else 0)

/-- Feed a value sequence into one window of RollingZScore.update and return
the z-score of the last update. -/
noncomputable def zscoreRun (window : ℕ) (values : List ℝ) : ℝ :=
  (values.foldl (fun acc v => zscoreUpdate window acc.1 v) (([] : List ℝ), (0 : ℝ))).2

/-! ## EnhancedRiskManager (enhanced_risk_manager.py) -/

/-- Real-valued dictionary lookup with default. -/
noncomputable def rlookupD (m : List (String × ℝ)) (k : String) (d : ℝ) : ℝ :=
  (alookup k m).getD d

/-- The state of an EnhancedRiskManager as far as position sizing reads it:
configured size and value tables, volatility estimates, open positions as
(symbol, size, price), and the dynamic-sizing switch, which __init__ sets to
true and which no source path ever clears. -/
structure ERMState where
  base_position_sizes : List (String × ℝ)
  max_position_values : List (String × ℝ)
  volatility_estimates : List (String × ℝ)
  positions : List (String × ℝ × ℝ)
  dynamic_sizing_enabled : Bool
  volatility_scaling_factor : ℝ

/-- EnhancedRiskManager._calculate_portfolio_heat: total absolute position
value normalised by the hard-coded base portfolio value 10000; zero when
there are no positions. -/
noncomputable def calculate_portfolio_heat (st : ERMState) : ℝ :=
  if st.positions = [] then 0
  else ((st.positions.map fun p => |p.2.1 * p.2.2|).sum) / 10000

/-- EnhancedRiskManager._calculate_correlation_adjustment.  The source guard
tests membership of the string symbol among the keys of correlation_matrix,
but that dictionary is keyed by symbol pairs, so the guard never passes and
the method returns 1.0 on every input. -/
noncomputable def calculate_correlation_adjustment (_st : ERMState)
    (_symbol : String) : ℝ := 1

/-- EnhancedRiskManager.calculate_position_size: the volatility-, signal-,
heat- and correlation-adjusted base size, capped by the per-symbol maximum
position value divided by the price; an absent value cap means an infinite
cap, and a nonpositive price replaces the cap by the base size. -/
noncomputable def calculate_position_size (st : ERMState) (symbol : String)
    (signal_strength current_price : ℝ) : ℝ :=
  let base_size := rlookupD st.base_position_sizes symbol (1/1000)
  if st.dynamic_sizing_enabled = false then base_size
  else
    let volatility := rlookupD st.volatility_estimates symbol (1/10)
    let vol_adjustment := 1 / (1 + volatility * st.volatility_scaling_factor)
    let signal_adjustment := Real.sqrt signal_strength
    let heat_adjustment := 1 / (1 + calculate_portfolio_heat st)
    let adjusted_size := base_size * vol_adjustment * signal_adjustment *
      heat_adjustment * calculate_correlation_adjustment st symbol
    match alookup symbol st.max_position_values with
    | some max_value =>
        min adjusted_size (if 0 < current_price then max_value / current_price else base_size)
    | none =>
        if 0 < current_price then adjusted_size else min adjusted_size base_size

/-! ## ExecutionManager (execution_manager.py) -/

/-- A child-order result as returned by the exchange client create_order:
order id, requested amount echoed by the venue, filled amount and average
fill price. -/
structure OrderResult where
  oid : ℕ
  amount : ℚ
  filled : ℚ
  average : ℚ
  deriving Repr, DecidableEq

/-- An observable call issued to the exchange client. -/
inductive ExAction where
  | create (symbol side : String) (amount price : ℚ)
  | cancel (oid : ℕ) (symbol : String)
  | fetchTicker (symbol : String)
  deriving Repr, DecidableEq

/-- The combined result dictionary built at the end of an iceberg
execution. -/
structure IcebergReport where
  oid : ℕ
  amount : ℚ
  filled : ℚ
  average : ℚ
  orders : List OrderResult
  deriving Repr, DecidableEq

/-- The ExecutionManager configuration parameters. -/
structure EMConfig where
  min_liquidity_ratio : ℚ
  max_price_impact : ℚ
  iceberg_threshold : ℚ
  min_fill_ratio : ℚ
  deriving Repr, DecidableEq

/-- One side of the order book passed to execute_order: price levels with
their quantities, distinct prices. -/
structure ExecBook where
  bids : List (ℚ × ℚ)
  asks : List (ℚ × ℚ)
  deriving Repr, DecidableEq

/-- The relevant book side: bids for a sell, asks otherwise, as the source
conditional on the side string. -/
def bookSide (book : ExecBook) (side : String) : List (ℚ × ℚ) :=
  if side = "sell" then book.bids else book.asks

/-- ExecutionManager._calculate_liquidity_score: total depth on the
relevant side over the amount, capped at 1.  A zero amount raises in the
source and is caught to a 0.0 score; rational division by zero gives the
same value. -/
def liquidity_score (book : ExecBook) (side : String) (amount : ℚ) : ℚ :=
  min 1 (((bookSide book side).map (·.2)).sum / amount)

/-- Sorted insertion used to model the Python sorted builtin on the price
keys (stable, but prices are distinct); desc gives descending order. -/
def insertPrice (desc : Bool) (p : ℚ) : List ℚ → List ℚ
  | [] => [p]
  | q :: rest =>
      if (if desc then q ≤ p else p ≤ q) then p :: q :: rest
      else q :: insertPrice desc p rest

/-- sorted(book_side.keys(), reverse=(side == sell)). -/
def sortPrices (desc : Bool) (ps : List ℚ) : List ℚ :=
  ps.foldr (insertPrice desc) []

/-- The book walk of _estimate_price_impact: consume the amount level by
level in price priority, accumulating cost, stopping once nothing remains;
returns the remaining amount and the total cost. -/
def walkLevels (levels : List (ℚ × ℚ)) : List ℚ → ℚ → ℚ → ℚ × ℚ
  | [], remaining, cost => (remaining, cost)
  | p :: rest, remaining, cost =>
      let available := ((alookup p levels).getD 0)
      let taken := min remaining available
      let remaining2 := remaining - taken
      let cost2 := cost + taken * p
      if remaining2 ≤ 0 then (remaining2, cost2)
      else walkLevels levels rest remaining2 cost2

/-- ExecutionManager._estimate_price_impact: none models the infinite
impact returned when depth is insufficient, as well as the division
exceptions (zero amount, zero best price, empty side) the source catches.
Otherwise the fractional distance of the volume-weighted average price from
the best price, together with that average price. -/
def estimate_price_impact (book : ExecBook) (side : String) (amount : ℚ) :
    Option (ℚ × ℚ) :=
  let levels := bookSide book side
  let prices := sortPrices (side = "sell") (levels.map (·.1))
  match prices with
  | [] => none
  | p0 :: _ =>
      let w := walkLevels levels prices amount 0
      if 0 < w.1 then none
      else if amount = 0 ∨ p0 = 0 then none
      else some (|w.2 / amount - p0| / p0, w.2 / amount)

/-- ExecutionManager._should_use_iceberg: below the threshold a single
order; otherwise a chunk of a fifth of the amount or a tenth of the total
two-sided depth, whichever is smaller, floored at 0.1. -/
def should_use_iceberg (cfg : EMConfig) (amount : ℚ) (book : ExecBook) :
    Option ℚ :=
  if amount < cfg.iceberg_threshold then none
  else
    let total_depth := ((book.bids.map (·.2)).sum) + ((book.asks.map (·.2)).sum)
    some (max (min (amount * (2/10)) (total_depth * (1/10))) (1/10))

/-- ExecutionManager._execute_single_order, driven by the list of client
responses to create_order: none in the list models a raised exception (retry
without cancel), a response below the minimum fill ratio is cancelled and
retried, and an exhausted response list behaves like an exception.  The
numeric argument is the remaining retry budget; the result carries the
action log and the unconsumed responses. -/
def execute_single (cfg : EMConfig) (symbol side : String) (amount price : ℚ) :
    ℕ → List (Option OrderResult) →
    Option OrderResult × List ExAction × List (Option OrderResult)
  | 0, creates => (none, [], creates)
  | n + 1, creates =>
      match creates with
      | [] =>
          let r := execute_single cfg symbol side amount price n []
          (r.1, ExAction.create symbol side amount price :: r.2.1, r.2.2)
      | none :: cs =>
          let r := execute_single cfg symbol side amount price n cs
          (r.1, ExAction.create symbol side amount price :: r.2.1, r.2.2)
      | some o :: cs =>
          if o.filled / o.amount < cfg.min_fill_ratio then
            let r := execute_single cfg symbol side amount price n cs
            (r.1, ExAction.create symbol side amount price ::
              ExAction.cancel o.oid symbol :: r.2.1, r.2.2)
          else (some o, [ExAction.create symbol side amount price], cs)

/-- The ticker refresh between chunks: fetch_ticker yields the next limit
price; a raised exception (none, or an exhausted response list) leaves the
price unchanged. -/
def nextTick (price : ℚ) : List (Option ℚ) → ℚ × List (Option ℚ)
  | [] => (price, [])
  | none :: ts => (price, ts)
  | some tp :: ts => (tp, ts)

/-- The tail of one loop iteration of _execute_iceberg_order after a chunk
succeeded: if something remains to fill, log the ticker fetch and continue
with the recursive result; otherwise build the combined result dictionary
from the accumulated orders. -/
def icebergJoin (symbol : String) (total filled2 cost2 : ℚ)
    (orders2 : List OrderResult) (o : OrderResult) (acts1 : List ExAction)
    (rec' : Option IcebergReport × List ExAction × List OrderResult) :
    Option IcebergReport × List ExAction × List OrderResult :=
  if 0 < total - filled2 then
    (rec'.1, acts1 ++ ExAction.fetchTicker symbol :: rec'.2.1, rec'.2.2)
  else
    (some { oid := ((orders2.head?).getD o).oid, amount := total,
            filled := filled2,
            average := if 0 < filled2 then cost2 / filled2 else 0,
            orders := orders2 }, acts1, orders2)

/-- The loop of ExecutionManager._execute_iceberg_order.  Arguments after
the retry budget: fuel (one more than the remaining client responses
suffices, proved below), current limit price, accumulated filled amount and
cost, accumulated child orders, remaining create responses and ticker
responses.  Returns the combined report (none on abort), the action log and
the final accumulated child-order list.  On a failed chunk every accumulated
child order is cancelled; when nothing remains to fill, the combined report
is built, which in the source indexes orders[0] and therefore raises (caught
upstream to None) if no chunk was ever submitted. -/
def icebergAux (cfg : EMConfig) (symbol side : String) (total chunk_size : ℚ)
    (max_retries : ℕ) :
    ℕ → ℚ → ℚ → ℚ → List OrderResult → List (Option OrderResult) →
    List (Option ℚ) →
    Option IcebergReport × List ExAction × List OrderResult
  | 0, _, _, _, orders, _, _ => (none, [], orders)
  | n + 1, price, filled, cost, orders, creates, ticks =>
      if total - filled ≤ 0 then
        match orders with
        | [] => (none, [], [])
        | o0 :: _ =>
            (some { oid := o0.oid, amount := total, filled := filled,
                    average := if 0 < filled then cost / filled else 0,
                    orders := orders }, [], orders)
      else
        let chunk := min chunk_size (total - filled)
        let r := execute_single cfg symbol side chunk price max_retries creates
        match r.1 with
        | none =>
            (none, r.2.1 ++ orders.map (fun o => ExAction.cancel o.oid symbol), orders)
        | some o =>
            icebergJoin symbol total (filled + o.filled)
              (cost + o.filled * o.average) (orders ++ [o]) o r.2.1
              (icebergAux cfg symbol side total chunk_size max_retries n
                (nextTick price ticks).1 (filled + o.filled)
                (cost + o.filled * o.average) (orders ++ [o]) r.2.2
                (nextTick price ticks).2)

/-- ExecutionManager._execute_iceberg_order from its entry state. -/
def execute_iceberg (cfg : EMConfig) (symbol side : String)
    (total_amount chunk_size price : ℚ) (max_retries : ℕ)
    (creates : List (Option OrderResult)) (ticks : List (Option ℚ)) :
    Option IcebergReport × List ExAction × List OrderResult :=
  icebergAux cfg symbol side total_amount chunk_size max_retries
    (creates.length + 1) price 0 0 [] creates ticks

/-- The result of execute_order: a plain child order or a combined iceberg
report. -/
inductive ExecResult where
  | single (o : OrderResult)
  | iceberg (r : IcebergReport)
  deriving Repr, DecidableEq

/-- ExecutionManager.execute_order: reject on insufficient liquidity before
any client call, then on excessive or infinite price impact, then place the
order as a single order or an iceberg.  After a successful placement the
source computes fill ratio and slippage; a zero reported amount or a zero
reference average price raises there and is caught to None (after the child
orders were already placed). -/
def execute_order (cfg : EMConfig) (symbol side : String) (amount : ℚ)
    (book : ExecBook) (max_retries : ℕ) (creates : List (Option OrderResult))
    (ticks : List (Option ℚ)) : Option ExecResult × List ExAction :=
  if liquidity_score book side amount < cfg.min_liquidity_ratio then (none, [])
  else
    match estimate_price_impact book side amount with
    | none => (none, [])
    | some (impact, avg_price) =>
        if impact > cfg.max_price_impact then (none, [])
        else
          match should_use_iceberg cfg amount book with
          | some chunk_size =>
              let r := execute_iceberg cfg symbol side amount chunk_size
                avg_price max_retries creates ticks
              match r.1 with
              | none => (none, r.2.1)
              | some rep =>
                  if rep.amount = 0 ∨ avg_price = 0 then (none, r.2.1)
                  else (some (ExecResult.iceberg rep), r.2.1)
          | none =>
              let r := execute_single cfg symbol side amount avg_price
                max_retries creates
              match r.1 with
              | none => (none, r.2.1)
              | some o =>
                  if o.amount = 0 ∨ avg_price = 0 then (none, r.2.1)
                  else (some (ExecResult.single o), r.2.1)

/-! ## Helper lemmas -/

theorem setLevel_idem (l : List (ℚ × ℚ)) (p a : ℚ) :
    setLevel (setLevel l p a) p a = setLevel l p a := by
  induction l with
  | nil => simp [setLevel]
  | cons hd tl ih =>
      obtain ⟨q, b⟩ := hd
      by_cases h1 : p < q
      · simp [setLevel, h1, lt_irrefl]
      · by_cases h2 : p = q
        · simp [setLevel, h1, h2, lt_irrefl]
        · simp [setLevel, h1, h2, ih]

theorem removeLevel_idem (l : List (ℚ × ℚ)) (p : ℚ) :
    removeLevel (removeLevel l p) p = removeLevel l p := by
  induction l with
  | nil => rfl
  | cons hd tl ih =>
      obtain ⟨q, b⟩ := hd
      by_cases h : q = p
      · simp [removeLevel, h, ih]
      · simp [removeLevel, h, ih]

theorem alookup_removeLevel (l : List (ℚ × ℚ)) (p : ℚ) :
    alookup p (removeLevel l p) = none := by
  induction l with
  | nil => rfl
  | cons hd tl ih =>
      obtain ⟨q, b⟩ := hd
      by_cases h : q = p
      · simpa [removeLevel, h] using ih
      · have hp : ¬ p = q := fun hc => h hc.symm
        simpa [removeLevel, alookup, h, hp] using ih

theorem updateLevels_idem (l : List (ℚ × ℚ)) (p a : ℚ) :
    updateLevels (updateLevels l p a) p a = updateLevels l p a := by
  by_cases h : a = 0
  · simp [updateLevels, h, removeLevel_idem]
  · simp [updateLevels, h, setLevel_idem]

theorem scanTiers_spec (vol : ℚ) (m : Bool) :
    ∀ (tiers : List VolumeTier) (k : ℕ) (t : VolumeTier) (cur : ℚ),
      List.Pairwise (fun a b => a.min_volume < b.min_volume) tiers →
      tiers.get? k = some t → t.min_volume ≤ vol →
      (∀ u, tiers.get? (k + 1) = some u → vol < u.min_volume) →
      scanTiers vol m tiers cur = tierRate t m := by
  intro tiers
  induction tiers with
  | nil => intro k t cur _ hk; simp at hk
  | cons a rest ih =>
      intro k t cur hpair hk hle hnext
      match k with
      | 0 =>
          have ha : a = t := by simpa using hk
          subst ha
          have hge : a.min_volume ≤ vol := hle
          cases rest with
          | nil => simp [scanTiers, hge]
          | cons u rest2 =>
              have hu : vol < u.min_volume := hnext u (by simp)
              simp [scanTiers, hge, not_le.mpr hu]
      | k' + 1 =>
          have hk' : rest.get? k' = some t := by simpa using hk
          have ht_mem : t ∈ rest := List.get?_mem hk'
          have hlt : a.min_volume < t.min_volume :=
            (List.pairwise_cons.mp hpair).1 t ht_mem
          have hge : a.min_volume ≤ vol := le_trans hlt.le hle
          have hrec := ih k' t (tierRate a m) (List.pairwise_cons.mp hpair).2
            hk' hle (fun u hu => hnext u (by simpa using hu))
          simp [scanTiers, hge, hrec]

theorem runOps_flag (ops : List RMOp) :
    ∀ s : RiskState, s.daily_loss_limit_reached = true →
      (∀ b ∈ (runOps s ops).1, b = false) ∧
      (runOps s ops).2.daily_loss_limit_reached = true := by
  induction ops with
  | nil =>
      intro s h
      exact ⟨by simp [runOps], by simpa [runOps] using h⟩
  | cons op rest ih =>
      intro s h
      cases op with
      | canTrade sym amt d =>
          have hct : can_trade s sym amt d = (false, s) := by
            simp [can_trade, h]
          constructor
          · intro b hb
            simp [runOps, hct] at hb
            rcases hb with hb | hb
            · exact hb
            · exact (ih s h).1 b hb
          · simpa [runOps, hct] using (ih s h).2
      | registerTrade a p e dir =>
          have h2 : (register_trade s a p e dir).daily_loss_limit_reached = true := by
            simp [register_trade, h]
          simpa [runOps] using ih _ h2
      | updatePosition sym a pr =>
          have h2 : (update_position s sym a pr).daily_loss_limit_reached = true := by
            simpa [update_position] using h
          simpa [runOps] using ih _ h2
      | checkStopLoss c e => simpa [runOps] using ih s h
      | resetEntryState =>
          have h2 : (reset_entry_state s).daily_loss_limit_reached = true := h
          simpa [runOps] using ih _ h2

theorem execute_single_nil (cfg : EMConfig) (symbol side : String)
    (amount price : ℚ) :
    ∀ n : ℕ, (execute_single cfg symbol side amount price n []).1 = none := by
  intro n
  induction n with
  | zero => rfl
  | succ k ih => simpa [execute_single] using ih

theorem execute_single_consumes (cfg : EMConfig) (symbol side : String)
    (amount price : ℚ) :
    ∀ (n : ℕ) (creates : List (Option OrderResult)),
      (execute_single cfg symbol side amount price n creates).1 ≠ none →
      (execute_single cfg symbol side amount price n creates).2.2.length <
        creates.length := by
  intro n
  induction n with
  | zero => intro creates h; simp [execute_single] at h
  | succ k ih =>
      intro creates h
      match creates with
      | [] =>
          exact absurd (by simpa [execute_single] using
            execute_single_nil cfg symbol side amount price k) h
      | none :: cs =>
          have h2 : (execute_single cfg symbol side amount price k cs).1 ≠ none := by
            simpa [execute_single] using h
          have := ih cs h2
          simp [execute_single]
          omega
      | some o :: cs =>
          by_cases hf : o.filled / o.amount < cfg.min_fill_ratio
          · have h2 : (execute_single cfg symbol side amount price k cs).1 ≠ none := by
              simpa [execute_single, hf] using h
            have := ih cs h2
            simp [execute_single, hf]
            omega
          · simp [execute_single, hf]

theorem icebergAux_done_nil (cfg : EMConfig) (symbol side : String)
    (total chunk : ℚ) (mr n : ℕ) (price filled cost : ℚ)
    (creates : List (Option OrderResult)) (ticks : List (Option ℚ))
    (hdone : total - filled ≤ 0) :
    icebergAux cfg symbol side total chunk mr (n + 1) price filled cost []
      creates ticks = (none, [], []) := by
  unfold icebergAux
  rw [if_pos hdone]

theorem icebergAux_done_cons (cfg : EMConfig) (symbol side : String)
    (total chunk : ℚ) (mr n : ℕ) (price filled cost : ℚ) (o0 : OrderResult)
    (rest0 : List OrderResult) (creates : List (Option OrderResult))
    (ticks : List (Option ℚ)) (hdone : total - filled ≤ 0) :
    icebergAux cfg symbol side total chunk mr (n + 1) price filled cost
      (o0 :: rest0) creates ticks
    = (some { oid := o0.oid, amount := total, filled := filled,
              average := if 0 < filled then cost / filled else 0,
              orders := o0 :: rest0 }, [], o0 :: rest0) := by
  unfold icebergAux
  rw [if_pos hdone]

theorem icebergAux_fail (cfg : EMConfig) (symbol side : String)
    (total chunk : ℚ) (mr n : ℕ) (price filled cost : ℚ)
    (orders : List OrderResult) (creates : List (Option OrderResult))
    (ticks : List (Option ℚ)) (hdone : ¬ total - filled ≤ 0)
    (hr : (execute_single cfg symbol side (min chunk (total - filled)) price mr creates).1 = none) :
    icebergAux cfg symbol side total chunk mr (n + 1) price filled cost orders
      creates ticks
    = (none,
       (execute_single cfg symbol side (min chunk (total - filled)) price mr creates).2.1
         ++ orders.map (fun o => ExAction.cancel o.oid symbol), orders) := by
  simp only [icebergAux]
  rw [if_neg hdone]
  rw [hr]

theorem icebergAux_some (cfg : EMConfig) (symbol side : String)
    (total chunk : ℚ) (mr n : ℕ) (price filled cost : ℚ) (o : OrderResult)
    (orders : List OrderResult) (creates : List (Option OrderResult))
    (ticks : List (Option ℚ)) (hdone : ¬ total - filled ≤ 0)
    (hr : (execute_single cfg symbol side (min chunk (total - filled)) price mr creates).1 = some o) :
    icebergAux cfg symbol side total chunk mr (n + 1) price filled cost orders
      creates ticks
    = icebergJoin symbol total (filled + o.filled) (cost + o.filled * o.average)
        (orders ++ [o]) o
        (execute_single cfg symbol side (min chunk (total - filled)) price mr creates).2.1
        (icebergAux cfg symbol side total chunk mr n (nextTick price ticks).1
          (filled + o.filled) (cost + o.filled * o.average) (orders ++ [o])
          (execute_single cfg symbol side (min chunk (total - filled)) price mr creates).2.2
          (nextTick price ticks).2) := by
  simp only [icebergAux]
  rw [if_neg hdone]
  rw [hr]

theorem icebergAux_spec :
    ∀ (fuel : ℕ) (cfg : EMConfig) (symbol side : String) (total chunk : ℚ)
      (mr : ℕ) (price filled cost : ℚ) (orders : List OrderResult)
      (creates : List (Option OrderResult)) (ticks : List (Option ℚ)),
      creates.length < fuel →
      filled = (orders.map OrderResult.filled).sum →
      (∀ rep,
        (icebergAux cfg symbol side total chunk mr fuel price filled cost orders creates ticks).1 = some rep →
          rep.filled = (rep.orders.map OrderResult.filled).sum
          ∧ rep.orders =
            (icebergAux cfg symbol side total chunk mr fuel price filled cost orders creates ticks).2.2)
      ∧ ((icebergAux cfg symbol side total chunk mr fuel price filled cost orders creates ticks).1 = none →
          ∀ o ∈ (icebergAux cfg symbol side total chunk mr fuel price filled cost orders creates ticks).2.2,
            ExAction.cancel o.oid symbol ∈
              (icebergAux cfg symbol side total chunk mr fuel price filled cost orders creates ticks).2.1) := by
  intro fuel
  induction fuel with
  | zero =>
      intro cfg symbol side total chunk mr price filled cost orders creates ticks hlen _
      exact absurd hlen (Nat.not_lt_zero _)
  | succ n ih =>
      intro cfg symbol side total chunk mr price filled cost orders creates ticks hlen hfill
      by_cases hdone : total - filled ≤ 0
      · cases orders with
        | nil =>
            rw [icebergAux_done_nil cfg symbol side total chunk mr n price filled cost creates ticks hdone]
            constructor
            · intro rep hrep
              simp at hrep
            · intro _ o ho
              simp at ho
        | cons o0 rest0 =>
            rw [icebergAux_done_cons cfg symbol side total chunk mr n price filled cost o0 rest0 creates ticks hdone]
            constructor
            · intro rep hrep
              simp at hrep
              rw [← hrep]
              exact ⟨hfill, rfl⟩
            · intro hnone
              simp at hnone
      · cases hr : (execute_single cfg symbol side (min chunk (total - filled)) price mr creates).1 with
        | none =>
            rw [icebergAux_fail cfg symbol side total chunk mr n price filled cost orders creates ticks hdone hr]
            constructor
            · intro rep hrep
              simp at hrep
            · intro _ o ho
              simp only [List.mem_append, List.mem_map]
              right
              exact ⟨o, ho, rfl⟩
        | some o =>
            have hcons : (execute_single cfg symbol side (min chunk (total - filled)) price mr creates).2.2.length < creates.length :=
              execute_single_consumes cfg symbol side (min chunk (total - filled)) price mr creates (by simp [hr])
            have hlen2 : (execute_single cfg symbol side (min chunk (total - filled)) price mr creates).2.2.length < n := by omega
            have hfill2 : filled + o.filled = ((orders ++ [o]).map OrderResult.filled).sum := by
              simp [hfill]
            rw [icebergAux_some cfg symbol side total chunk mr n price filled cost o orders creates ticks hdone hr]
            have hrec := ih cfg symbol side total chunk mr
              (nextTick price ticks).1 (filled + o.filled)
              (cost + o.filled * o.average) (orders ++ [o])
              (execute_single cfg symbol side (min chunk (total - filled)) price mr creates).2.2
              (nextTick price ticks).2 hlen2 hfill2
            by_cases hrem : 0 < total - (filled + o.filled)
            · unfold icebergJoin
              rw [if_pos hrem]
              constructor
              · intro rep hrep
                exact hrec.1 rep hrep
              · intro hnone o2 ho2
                have := hrec.2 hnone o2 ho2
                simp only [List.mem_append, List.mem_cons]
                right
                right
                exact this
            · unfold icebergJoin
              rw [if_neg hrem]
              constructor
              · intro rep hrep
                simp at hrep
                rw [← hrep]
                exact ⟨hfill2, rfl⟩
              · intro hnone
                simp at hnone

/-! ## Claim theorems -/

/-- C9: applying the same (price, quantity) order-book update twice leaves
the price levels exactly as applying it once does (the update timestamp
aside, captured by reapplying at any times), and a zero-quantity update
removes the level at that price whatever it held, including when no level
exists. -/
theorem C9_update_idempotent_and_zero_removes :
    (∀ (b : OrderBook) (side : String) (p a t1 t2 : ℚ),
        (b.update side p a t1).update side p a t2 = b.update side p a t2)
    ∧ (∀ (b : OrderBook) (p t : ℚ),
        alookup p ((b.update "bids" p 0 t).bids) = none
        ∧ alookup p ((b.update "asks" p 0 t).asks) = none) := by
  constructor
  · intro b side p a t1 t2
    by_cases h : side = "bids" <;>
      simp [OrderBook.update, h, updateLevels_idem]
  · intro b p t
    constructor
    · simp [OrderBook.update, updateLevels, alookup_removeLevel]
    · simp [OrderBook.update, updateLevels, alookup_removeLevel]

/-- C2 counterexample: no fixed stop amount makes the stop-loss check an
additive threshold in the spread: with the percentage 0.02, entry 100
triggers at 105 while entry 1000 does not trigger at 1005, which no single
stop_amount can reproduce. -/
theorem C2_counterexample :
    ¬ ∃ stop_amount : ℚ, ∀ entry current : ℚ,
        check_stop_loss (mkRisk (1/50)) current (some entry) = true ↔
          current ≥ entry + stop_amount := by
  rintro ⟨a, h⟩
  have h1 : (105 : ℚ) ≥ 100 + a :=
    (h 100 105).mp (by norm_num [check_stop_loss, mkRisk])
  have h2 : ¬ ((1005 : ℚ) ≥ 1000 + a) := by
    intro hc
    have hx := (h 1000 1005).mpr hc
    norm_num [check_stop_loss, mkRisk] at hx
  apply h2
  linarith

/-- C2 amended: the stop-loss check takes no direction; with a provided
entry spread it triggers exactly when the entry spread is nonzero and the
relative change strictly exceeds stop_loss_percentage, symmetrically for
moves of either sign, and the state reset is the separate
reset_entry_state call, which clears all recorded entry spreads. -/
theorem C2_amended_relative_symmetric :
    (∀ (s : RiskState) (e c : ℚ),
        check_stop_loss s c (some e) = true ↔
          e ≠ 0 ∧ |c - e| / |e| > s.stop_loss_percentage)
    ∧ (∀ (s : RiskState) (e d : ℚ),
        check_stop_loss s (e + d) (some e) = check_stop_loss s (e - d) (some e))
    ∧ (∀ s : RiskState, (reset_entry_state s).entry_spreads = []) := by
  refine ⟨?_, ?_, fun s => rfl⟩
  · intro s e c
    by_cases he : e = 0 <;> simp [check_stop_loss, he]
  · intro s e d
    have h1 : e + d - e = d := by ring
    have h2 : e - d - e = -d := by ring
    simp [check_stop_loss, h1, h2, abs_neg]

/-- C1 counterexample: the trading-loop profitability check admits a trade
on raw prices (sell bid 30000, buy ask 29999.9, floor 0.000005 for
BTC/USDT) whose fee-adjusted edge, at the very taker rates the loop books
the trade with, is far below the floor — so admission is not conditioned on
fee-adjusted prices. -/
theorem C1_counterexample :
    tradingLoopEmits true 30000 0 0 (299999/10)
        (minProfitLookup minProfitAfterFees minProfitDefault "BTC/USDT") = true
    ∧ effective_price 30000 feeBinanceTaker false
        - effective_price (299999/10) feeKrakenTaker true
        < minProfitLookup minProfitAfterFees minProfitDefault "BTC/USDT" := by
  constructor
  · norm_num [tradingLoopEmits, tradingLoopProfit, minProfitLookup,
      minProfitAfterFees, minProfitDefault, alookup]
  · norm_num [effective_price, feeBinanceTaker, feeKrakenTaker,
      minProfitLookup, minProfitAfterFees, minProfitDefault, alookup]

/-- C1 amended: the trading loop admits a prospective trade exactly when the
raw price difference of the implied direction (sell-side bid minus buy-side
ask) reaches the per-symbol min_profit_after_fees floor, with the default
fallback for unknown symbols; fees enter only the booked PnL afterwards.
For venue A ask 30001 and venue B bid 29999 against a 0.05 floor the raw
difference is -2, so no trade is emitted whatever the other prices are. -/
theorem C1_amended_raw_profit_admission :
    (∀ (zpos : Bool) (bidP askP bidS askS minP : ℚ),
        tradingLoopEmits zpos bidP askP bidS askS minP = true ↔
          minP ≤ tradingLoopProfit zpos bidP askP bidS askS)
    ∧ (∀ bidP askS : ℚ,
        tradingLoopEmits false bidP 30001 29999 askS (1/20) = false)
    ∧ minProfitLookup minProfitAfterFees minProfitDefault "BTC/USDT" = 1/200000
    ∧ minProfitLookup minProfitAfterFees minProfitDefault "XRP/USDT" = minProfitDefault := by
  refine ⟨?_, ?_,
    by norm_num [minProfitLookup, minProfitAfterFees, minProfitDefault, alookup],
    by rfl⟩
  · intro zpos bidP askP bidS askS minP
    simp [tradingLoopEmits, ge_iff_le]
  · intro bidP askS
    simp [tradingLoopEmits, tradingLoopProfit]
    norm_num

/-- C7: the fee lookup starts from the venue default and scans tiers in
ascending min_volume order; a volume below every tier keeps the default, and
a volume reaching tier k but not tier k plus 1 yields tier k's maker or
taker rate. -/
theorem C7_fee_tier_lookup :
    (∀ (d vol : ℚ) (m : Bool) (tiers : List VolumeTier),
        (∀ t ∈ tiers, vol < t.min_volume) → get_fees d tiers vol m = d)
    ∧ (∀ (d vol : ℚ) (m : Bool) (tiers : List VolumeTier) (k : ℕ) (t : VolumeTier),
        List.Pairwise (fun a b => a.min_volume < b.min_volume) tiers →
        tiers.get? k = some t → t.min_volume ≤ vol →
        (∀ u, tiers.get? (k + 1) = some u → vol < u.min_volume) →
        get_fees d tiers vol m = tierRate t m) := by
  constructor
  · intro d vol m tiers h
    cases tiers with
    | nil => rfl
    | cons a rest =>
        have ha := h a (by simp)
        simp [get_fees, scanTiers, not_le.mpr ha]
  · intro d vol m tiers k t hpair hk hle hnext
    exact scanTiers_spec vol m tiers k t d hpair hk hle hnext

/-- C7 witness: on the binance schedule, a 10 BTC volume keeps the default
taker rate and a 60 BTC volume earns the first tier rate. -/
theorem C7_witness :
    get_fees binanceDefaultTaker binanceTiers 10 false = binanceDefaultTaker
    ∧ get_fees binanceDefaultTaker binanceTiers 60 false = 9/10000 := by
  constructor
  · apply C7_fee_tier_lookup.1
    intro t ht
    simp [binanceTiers] at ht
    rcases ht with h | h | h <;> subst h <;> norm_num
  · have h2 := C7_fee_tier_lookup.2 binanceDefaultTaker 60 false binanceTiers 0
      ⟨9/10000, 9/10000, 50, "BTC"⟩
      (by norm_num [binanceTiers]) (by rfl) (by norm_num)
      (by intro u hu
          simp [binanceTiers] at hu
          subst hu
          norm_num)
    rw [h2]
    norm_num [tierRate]

/-- C4: once a registered trade leaves the cumulative daily PnL at or below
the configured loss limit, the latch is set and every later admission call
returns false for every symbol, across any further sequence of admission,
trade-registration, position, stop-loss or entry-reset calls; only the
external daily reset (absent from the operation alphabet) can clear it. -/
theorem C4_drawdown_latch :
    ∀ (s : RiskState) (a p : ℚ) (e : Option ℚ) (dir : ℤ) (ops : List RMOp),
      (register_trade s a p e dir).daily_pnl ≤ -s.max_daily_loss →
      (∀ b ∈ (runOps (register_trade s a p e dir) ops).1, b = false) ∧
      (runOps (register_trade s a p e dir) ops).2.daily_loss_limit_reached = true := by
  intro s a p e dir ops h
  apply runOps_flag
  have hd : decide ((s.daily_pnl + p) ≤ -s.max_daily_loss) = true :=
    decide_eq_true (by simpa [register_trade] using h)
  simp [register_trade, hd]

/-- C4 witness: from the constructor defaults, one losing trade of PnL
-0.02 against the 0.01 daily loss limit latches the block and the next
admission call returns false. -/
theorem C4_witness :
    ((runOps (register_trade (mkRisk (1/50)) (1/1000) (-(2/100)) none 1)
        [RMOp.canTrade "BTC/USDT" (1/1000) 5]).1 = [false])
    ∧ (runOps (register_trade (mkRisk (1/50)) (1/1000) (-(2/100)) none 1)
        [RMOp.canTrade "BTC/USDT" (1/1000) 5]).2.daily_loss_limit_reached = true := by
  have h : (register_trade (mkRisk (1/50)) (1/1000) (-(2/100)) none 1).daily_pnl
      ≤ -(mkRisk (1/50)).max_daily_loss := by
    norm_num [register_trade, mkRisk]
  have hmain := C4_drawdown_latch (mkRisk (1/50)) (1/1000) (-(2/100)) none 1
    [RMOp.canTrade "BTC/USDT" (1/1000) 5] h
  refine ⟨?_, hmain.2⟩
  have hflag : (register_trade (mkRisk (1/50)) (1/1000) (-(2/100)) none 1).daily_loss_limit_reached = true := by
    simp [register_trade, mkRisk]
    norm_num
  have hres : can_trade (register_trade (mkRisk (1/50)) (1/1000) (-(2/100)) none 1)
      "BTC/USDT" (1/1000) 5
      = (false, register_trade (mkRisk (1/50)) (1/1000) (-(2/100)) none 1) := by
    unfold can_trade
    rw [if_pos hflag]
  simp only [runOps]
  rw [hres]

/-- C10: a present book whose last update is within the 5-second staleness
limit is always served, with bid 0 for an empty bid side and an infinite ask
for an empty ask side; None arises only for an absent book or one whose
recorded last update is more than 5 seconds old. -/
theorem C10_top_of_book :
    (∀ (books : List ((String × String) × OrderBook)) (ex sym : String)
        (now t : ℚ) (b : OrderBook),
        alookup (ex, sym) books = some b → b.last_update = some t →
        now - t ≤ 5 → get_orderbook books ex sym now = some b.get_top)
    ∧ (∀ (books : List ((String × String) × OrderBook)) (ex sym : String) (now : ℚ),
        get_orderbook books ex sym now = none →
        alookup (ex, sym) books = none ∨
          ∃ b t, alookup (ex, sym) books = some b ∧ b.last_update = some t ∧
            5 < now - t)
    ∧ (∀ b : OrderBook,
        (b.bids = [] → b.get_top.bid = 0) ∧ (b.asks = [] → b.get_top.ask = ⊤)) := by
  refine ⟨?_, ?_, ?_⟩
  · intro books ex sym now t b h1 h2 h3
    simp [get_orderbook, h1, h2, not_lt.mpr h3]
  · intro books ex sym now h
    cases hb : alookup (ex, sym) books with
    | none => exact Or.inl rfl
    | some b =>
        right
        cases ht : b.last_update with
        | none => simp [get_orderbook, hb, ht] at h
        | some t =>
            refine ⟨b, t, rfl, ht, ?_⟩
            by_contra hlt
            simp [get_orderbook, hb, ht, hlt] at h
  · intro b
    constructor
    · intro h; simp [OrderBook.get_top, h]
    · intro h; simp [OrderBook.get_top, h]

/-- C3: fed the values 1, 2, 3 into a window of size 3, RollingZScore.update
returns z = 1 for the third update, computed with the sample standard
deviation (the np.std call passes ddof 1), not the population-std value
(3 - 2)/popstd([1,2,3]) of about 1.2247 that the specification and the
repository test test_rolling_zscore_variance prescribe. -/
theorem C3_zscore_uses_sample_std :
    zscoreRun 3 [1, 2, 3] = 1
    ∧ zscoreRun 3 [1, 2, 3] ≠ (3 - 2) / popStd [1, 2, 3] := by
  have hm : listMean [1, 2, 3] = 2 := by
    norm_num [listMean]
  have hinner :
      ((List.map (fun x => (x - listMean [1, 2, 3]) ^ 2) [1, 2, 3]).sum) /
        ((([1, 2, 3] : List ℝ).length : ℝ) - 1) = 1 := by
    rw [hm]
    norm_num
  have hs : sampleStd [1, 2, 3] = 1 := by
    rw [sampleStd, hinner, Real.sqrt_one]
  have hrun : zscoreRun 3 [1, 2, 3] = 1 := by
    simp only [zscoreRun, List.foldl, zscoreUpdate, takeLast, List.nil_append,
      List.length_nil, List.length_cons, List.length_append]
    norm_num [hs, hm]
  refine ⟨hrun, ?_⟩
  rw [hrun]
  have hp : popStd [1, 2, 3] = Real.sqrt (2/3) := by
    rw [popStd, hm]
    norm_num
  rw [hp]
  have hpos : 0 < Real.sqrt (2/3) := Real.sqrt_pos.mpr (by norm_num)
  intro hc
  rw [eq_div_iff (ne_of_gt hpos), one_mul] at hc
  have : (2/3 : ℝ) = 1 := Real.sqrt_eq_one.mp (by linarith [hc])
  norm_num at this

/-- C8: the dynamically computed position size is never above the
per-symbol maximum position value divided by the (positive) price; the
dynamic-sizing switch is the constructor constant true. -/
theorem C8_position_size_cap :
    ∀ (st : ERMState) (symbol : String) (signal_strength current_price max_value : ℝ),
      st.dynamic_sizing_enabled = true →
      alookup symbol st.max_position_values = some max_value →
      0 < current_price →
      calculate_position_size st symbol signal_strength current_price
        ≤ max_value / current_price := by
  intro st symbol ss price mv hdyn hlk hp
  simp only [calculate_position_size, hdyn, hlk, if_pos hp]
  simp [min_le_right]

/-- C8 witness: a concrete state with a 50000 USDT cap on BTC/USDT at price
30000 never sizes above 50000 / 30000. -/
theorem C8_witness :
    calculate_position_size
        ⟨[("BTC/USDT", 1/10000)], [("BTC/USDT", 50000)], [], [], true, 1/2⟩
        "BTC/USDT" 1 30000
      ≤ 50000 / 30000 := by
  exact C8_position_size_cap _ "BTC/USDT" 1 30000 50000 rfl (by rfl) (by norm_num)

/-- C5: an order whose liquidity score is below min_liquidity_ratio is
rejected by execute_order with no child order issued: the result is None
with an empty action log. -/
theorem C5_liquidity_reject :
    ∀ (cfg : EMConfig) (symbol side : String) (amount : ℚ) (book : ExecBook)
      (mr : ℕ) (creates : List (Option OrderResult)) (ticks : List (Option ℚ)),
      liquidity_score book side amount < cfg.min_liquidity_ratio →
      execute_order cfg symbol side amount book mr creates ticks = (none, []) := by
  intro cfg symbol side amount book mr creates ticks h
  unfold execute_order
  rw [if_pos h]

/-- C5 witness: a sell of 1 against a book with total bid depth 0.1 scores
0.1 against a 0.3 minimum ratio and is rejected with no actions. -/
theorem C5_witness :
    execute_order ⟨3/10, 1/10000, 1, 19/20⟩ "BTC/USDT" "sell" 1
        ⟨[(100, 1/10)], [(101, 1/10)]⟩ 3 [] [] = (none, []) := by
  apply C5_liquidity_reject
  norm_num [liquidity_score, bookSide, min_def]

/-- C6: whenever an iceberg execution returns a combined report, its filled
field equals the sum of the filled amounts of its child orders; and whenever
it returns none, a cancel was issued for every child order submitted before
the failing chunk. -/
theorem C6_iceberg_fill_sum_and_cancel :
    ∀ (cfg : EMConfig) (symbol side : String) (total chunk price : ℚ) (mr : ℕ)
      (creates : List (Option OrderResult)) (ticks : List (Option ℚ)),
      (∀ rep,
        (execute_iceberg cfg symbol side total chunk price mr creates ticks).1 = some rep →
          rep.filled = (rep.orders.map OrderResult.filled).sum)
      ∧ ((execute_iceberg cfg symbol side total chunk price mr creates ticks).1 = none →
          ∀ o ∈ (execute_iceberg cfg symbol side total chunk price mr creates ticks).2.2,
            ExAction.cancel o.oid symbol ∈
              (execute_iceberg cfg symbol side total chunk price mr creates ticks).2.1) := by
  intro cfg symbol side total chunk price mr creates ticks
  have h := icebergAux_spec (creates.length + 1) cfg symbol side total chunk mr
    price 0 0 [] creates ticks (Nat.lt_succ_self _) (by simp)
  exact ⟨fun rep hrep => (h.1 rep hrep).1, h.2⟩

/-- C6 witness: a two-chunk success reports filled 1 equal to the child sum
0.5 + 0.5, and a run whose second chunk fails cancels the first chunk and
returns none. -/
theorem C6_witness :
    ((execute_iceberg ⟨3/10, 1/10000, 1, 19/20⟩ "BTC/USDT" "sell" 1 (1/2) 100 1
        [some ⟨1, 1/2, 1/2, 100⟩, some ⟨2, 1/2, 1/2, 100⟩] []).1
      = some ⟨1, 1, 1, 100, [⟨1, 1/2, 1/2, 100⟩, ⟨2, 1/2, 1/2, 100⟩]⟩)
    ∧ (IcebergReport.filled ⟨1, 1, 1, 100, [⟨1, 1/2, 1/2, 100⟩, ⟨2, 1/2, 1/2, 100⟩]⟩
        = ((IcebergReport.orders
              ⟨1, 1, 1, 100, [⟨1, 1/2, 1/2, 100⟩, ⟨2, 1/2, 1/2, 100⟩]⟩).map
            OrderResult.filled).sum)
    ∧ ((execute_iceberg ⟨3/10, 1/10000, 1, 19/20⟩ "BTC/USDT" "sell" 1 (1/2) 100 1
        [some ⟨1, 1/2, 1/2, 100⟩] []).1 = none)
    ∧ ExAction.cancel (OrderResult.oid ⟨1, 1/2, 1/2, 100⟩) "BTC/USDT" ∈
        (execute_iceberg ⟨3/10, 1/10000, 1, 19/20⟩ "BTC/USDT" "sell" 1 (1/2) 100 1
          [some ⟨1, 1/2, 1/2, 100⟩] []).2.1 := by
  have hA :
      (execute_iceberg ⟨3/10, 1/10000, 1, 19/20⟩ "BTC/USDT" "sell" 1 (1/2) 100 1
        [some ⟨1, 1/2, 1/2, 100⟩, some ⟨2, 1/2, 1/2, 100⟩] []).1
      = some ⟨1, 1, 1, 100, [⟨1, 1/2, 1/2, 100⟩, ⟨2, 1/2, 1/2, 100⟩]⟩ := by
    norm_num [execute_iceberg, icebergAux, icebergJoin, execute_single, nextTick, min_def]
  have hB :
      (execute_iceberg ⟨3/10, 1/10000, 1, 19/20⟩ "BTC/USDT" "sell" 1 (1/2) 100 1
        [some ⟨1, 1/2, 1/2, 100⟩] []).1 = none := by
    norm_num [execute_iceberg, icebergAux, icebergJoin, execute_single, nextTick, min_def]
  have hMem : (⟨1, 1/2, 1/2, 100⟩ : OrderResult) ∈
      (execute_iceberg ⟨3/10, 1/10000, 1, 19/20⟩ "BTC/USDT" "sell" 1 (1/2) 100 1
        [some ⟨1, 1/2, 1/2, 100⟩] []).2.2 := by
    norm_num [execute_iceberg, icebergAux, icebergJoin, execute_single, nextTick, min_def]
  exact ⟨hA,
    (C6_iceberg_fill_sum_and_cancel ⟨3/10, 1/10000, 1, 19/20⟩ "BTC/USDT" "sell"
      1 (1/2) 100 1 [some ⟨1, 1/2, 1/2, 100⟩, some ⟨2, 1/2, 1/2, 100⟩] []).1 _ hA,
    hB,
    (C6_iceberg_fill_sum_and_cancel ⟨3/10, 1/10000, 1, 19/20⟩ "BTC/USDT" "sell"
      1 (1/2) 100 1 [some ⟨1, 1/2, 1/2, 100⟩] []).2 hB _ hMem⟩

/-- C10 witness: an empty but fresh book is served with bid 0 and infinite
ask. -/
theorem C10_witness :
    get_orderbook [(("binance", "BTC/USDT"), (⟨[], [], some 0⟩ : OrderBook))]
        "binance" "BTC/USDT" 3
      = some (OrderBook.get_top ⟨[], [], some 0⟩)
    ∧ (OrderBook.get_top (⟨[], [], some 0⟩ : OrderBook)).bid = 0
    ∧ (OrderBook.get_top (⟨[], [], some 0⟩ : OrderBook)).ask = ⊤ := by
  refine ⟨C10_top_of_book.1 _ "binance" "BTC/USDT" 3 0 _ (by rfl) rfl (by norm_num),
    (C10_top_of_book.2.2 _).1 rfl, (C10_top_of_book.2.2 _).2 rfl⟩

end CryptoHft
